import Mathlib

/-!
Verification of the mask-refinement and compositing pipeline of the
background-remover component (src/unnamed/part_000).

The pixel buffers of the JavaScript code are `Uint8ClampedArray`s laid out as
flat RGBA quadruples: the channel `c` of the pixel at column `x`, row `y` of a
`width` by `height` image lives at flat index `(y * width + x) * 4 + c`, with
`c = 0,1,2` the red, green, blue channels and `c = 3` the alpha channel.  We
model a buffer as a total function from `Int` indices to byte values, which
matches a typed array read at any index (reads the code performs are always
in bounds); the `width`/`height` fields carry the canvas dimensions.
-/

/-- An RGBA pixel buffer together with its canvas dimensions, modelling a
JavaScript `ImageData` (flat `Uint8ClampedArray` in row-major RGBA order). -/
structure ImageData where
  width : Nat
  height : Nat
  data : Int → Nat

/-- Flat index of the first channel (red) of pixel `(x, y)`, exactly the
source expression `(y * width + x) * 4`. -/
def pixIdx (width x y : Nat) : Int := ((y : Int) * width + x) * 4

/-- A freshly created canvas (`document.createElement` then sizing): every
channel of every pixel is zero, i.e. transparent black. -/
def blankCanvas (width height : Nat) : ImageData :=
  ⟨width, height, fun _ => 0⟩

/-- Model of `ctx.putImageData(img, 0, 0)`: the pixels of `img` are written at
the canvas origin, clipped to the canvas bounds; canvas pixels not covered by
`img` keep their previous value.  No dimension check is performed. -/
def putImageData (canvas img : ImageData) : ImageData :=
  ⟨canvas.width, canvas.height, fun j =>
    if 0 ≤ j ∧ j / 4 % (canvas.width : Int) < (img.width : Int) ∧
        j / 4 / (canvas.width : Int) < (img.height : Int) ∧
        j / 4 / (canvas.width : Int) < (canvas.height : Int) then
      img.data ((j / 4 / (canvas.width : Int) * (img.width : Int) +
        j / 4 % (canvas.width : Int)) * 4 + j % 4)
    else canvas.data j⟩

/-- Model of drawing an equal-size source with
`ctx.globalCompositeOperation = 'destination-in'`: every channel of the
destination is scaled by the source pixel's alpha (Porter-Duff destination-in
on premultiplied channels).  For the binary alpha values (0 or 255) produced
by the mask builder this is exact: source alpha 255 keeps the destination
pixel unchanged and source alpha 0 clears it to transparent black. -/
def destIn (dst src : ImageData) : ImageData :=
  ⟨dst.width, dst.height, fun j => dst.data j * src.data (j / 4 * 4 + 3) / 255⟩

/-- The contrast loop of `applyEdgeSmoothing`: for every pixel (stride-4 loop
over the buffer) the red, green and blue channels are set to 255 when the red
channel exceeds 128 and to 0 otherwise (`data[i] > 128`); the alpha channel
at `i + 3` is not written. -/
def rebinarize (img : ImageData) : ImageData :=
  ⟨img.width, img.height, fun j =>
    if 0 ≤ j ∧ j < 4 * (img.width * img.height) ∧ j % 4 ≠ 3 then
      (if 128 < img.data (j / 4 * 4) then 255 else 0)
    else img.data j⟩

/-- Source function `applyEdgeSmoothing(ctx, width, height)`: first the canvas is redrawn onto
itself through the CSS `blur(1px)` filter — an implementation-defined browser
primitive, modelled by the abstract buffer transform `blurDraw` (the canvas
dimensions are unchanged by a draw) — then the contrast loop re-binarizes the
color channels. -/
def applyEdgeSmoothing (blurDraw : (Int → Nat) → Int → Nat) (img : ImageData) :
    ImageData :=
  rebinarize ⟨img.width, img.height, blurDraw img.data⟩

/-- Source function `createEnhancedMask(segmentation, width, height)`: a `width` by `height`
canvas is created, the external `bodyPix.toMask` output `segMask` is written
at its origin with `putImageData` (no dimension check), and when the
refinement checkbox is on the smoothing pass is applied. -/
def createEnhancedMask (refinement : Bool)
    (blurDraw : (Int → Nat) → Int → Nat) (segMask : ImageData)
    (width height : Nat) : ImageData :=
  let maskCanvas := putImageData (blankCanvas width height) segMask
  if refinement then applyEdgeSmoothing blurDraw maskCanvas else maskCanvas

/-- The neighbourhood offsets `(dy, dx)` scanned by the nested
`for (let dy = -1; dy <= 1; dy++) for (let dx = -1; dx <= 1; dx++)` loops of
`refineEdges`; note the centre `(0, 0)` is included in the scan. -/
def nbrOffsets : List (Int × Int) :=
  [(-1, -1), (-1, 0), (-1, 1), (0, -1), (0, 0), (0, 1), (1, -1), (1, 0), (1, 1)]

/-- The neighbour counter of `refineEdges`: over the nine scanned offsets it
counts the cells whose alpha `masked[((y+dy)*width+(x+dx))*4 + 3]` exceeds
128 (the centre contributes only when its own alpha exceeds 128). -/
def keptCount9 (masked : Int → Nat) (width x y : Nat) : Nat :=
  (nbrOffsets.map (fun d =>
    if 128 < masked ((((y : Int) + d.1) * width + ((x : Int) + d.2)) * 4 + 3)
    then 1 else 0)).sum

/-- The eight proper neighbour offsets of a pixel (the specification's
8-neighbourhood, without the centre). -/
def nbrOffsets8 : List (Int × Int) :=
  [(-1, -1), (-1, 0), (-1, 1), (0, -1), (0, 1), (1, -1), (1, 0), (1, 1)]

/-- Number of the eight proper neighbours of `(x, y)` whose mask alpha
exceeds 128 (the specification's "kept" test). -/
def keptCount8 (masked : Int → Nat) (width x y : Nat) : Nat :=
  (nbrOffsets8.map (fun d =>
    if 128 < masked ((((y : Int) + d.1) * width + ((x : Int) + d.2)) * 4 + 3)
    then 1 else 0)).sum

/-- The flip condition of `refineEdges` for pixel `(x, y)`: its alpha in the
masked buffer is exactly 0 and at least 5 of the scanned cells are kept. -/
def writeCond (masked : Int → Nat) (width x y : Nat) : Prop :=
  masked (pixIdx width x y + 3) = 0 ∧ 5 ≤ keptCount9 masked width x y

instance (masked : Int → Nat) (width x y : Nat) :
    Decidable (writeCond masked width x y) := by
  unfold writeCond
  infer_instance

/-- Whether flat index `j` is one of the four channel slots of pixel
`(x, y)`. -/
def inBlock (width x y : Nat) (j : Int) : Prop :=
  j = pixIdx width x y ∨ j = pixIdx width x y + 1 ∨
    j = pixIdx width x y + 2 ∨ j = pixIdx width x y + 3

instance (width x y : Nat) (j : Int) : Decidable (inBlock width x y j) := by
  unfold inBlock
  infer_instance

/-- The value written into a flipped pixel's channel slot `j`: alpha becomes
255, the color channels are copied from the original (unmasked) buffer. -/
def restoredVal (original : Int → Nat) (j : Int) : Nat :=
  if j % 4 = 3 then 255 else original j

/-- One iteration of the inner loop body of `refineEdges` at pixel `(x, y)`:
when the pixel's masked alpha is 0 and at least 5 scanned cells are kept, the
four channel slots of the pixel are overwritten in the accumulating `result`
buffer (colors from `original`, alpha 255); otherwise `result` is returned
unchanged.  All reads are from the immutable `masked` and `original`
buffers. -/
def restorePixel (original masked : Int → Nat) (width : Nat)
    (result : Int → Nat) (x y : Nat) : Int → Nat :=
  if masked (pixIdx width x y + 3) = 0 then
    if 5 ≤ keptCount9 masked width x y then
      fun j =>
        if j = pixIdx width x y then original (pixIdx width x y)
        else if j = pixIdx width x y + 1 then original (pixIdx width x y + 1)
        else if j = pixIdx width x y + 2 then original (pixIdx width x y + 2)
        else if j = pixIdx width x y + 3 then 255
        else result j
    else result
  else result

/-- The row-major interior traversal of `refineEdges`:
`for (let y = 1; y < height - 1; y++) for (let x = 1; x < width - 1; x++)`. -/
def interiorCoords (width height : Nat) : List (Nat × Nat) :=
  (List.range' 1 (height - 2)).flatMap (fun y =>
    (List.range' 1 (width - 2)).map (fun x => (x, y)))

/-- Source function `refineEdges(originalData, maskedData, width, height)`: starting from a
copy of the masked buffer, the interior pixels are scanned row by row and
each discarded pixel with a 5-of-8 kept majority in the masked snapshot is
restored; the result is wrapped as an `ImageData` of the passed
dimensions. -/
def refineEdges (originalData maskedData : ImageData) (width height : Nat) :
    ImageData :=
  ⟨width, height,
    (interiorCoords width height).foldl
      (fun result p => restorePixel originalData.data maskedData.data width
        result p.1 p.2)
      maskedData.data⟩

/-- Source function `applyMaskWithSmoothing(ctx, maskCanvas, width, height)`: the canvas
content (the source image) is saved as `originalImageData`, the mask is
composited with `destination-in`, and `refineEdges` is run — unconditionally —
on the masked result against the saved original. -/
def applyMaskWithSmoothing (canvasImg mask : ImageData) (width height : Nat) :
    ImageData :=
  refineEdges canvasImg (destIn canvasImg mask) width height

/-- The processing pipeline of `removeBackground` after segmentation: the
canvas is sized to the source image and holds its pixels, the enhanced mask
is built from the external segmentation mask `segMask`, and the mask is
applied with smoothing.  `refinement` is the state of the edge-refinement
checkbox; `blurDraw` abstracts the browser blur filter. -/
def removeBackground (refinement : Bool)
    (blurDraw : (Int → Nat) → Int → Nat) (img segMask : ImageData) :
    ImageData :=
  applyMaskWithSmoothing img
    (createEnhancedMask refinement blurDraw segMask img.width img.height)
    img.width img.height

/-- Simultaneous (parallel) form of the edge-restoration pass, following the
specification: every interior pixel whose mask alpha is 0 and which has at
least 5 of its 8 neighbours kept in the *input* mask is flipped — alpha 255,
colors from the original buffer — and every other slot keeps its input
value. -/
def refineEdgesSimul (originalData maskedData : ImageData)
    (width height : Nat) : ImageData :=
  ⟨width, height, fun j =>
    if ∃ x ∈ List.range width, ∃ y ∈ List.range height,
        1 ≤ x ∧ x + 1 < width ∧ 1 ≤ y ∧ y + 1 < height ∧
        maskedData.data (pixIdx width x y + 3) = 0 ∧
        5 ≤ keptCount8 maskedData.data width x y ∧ inBlock width x y j
    then restoredVal originalData.data j
    else maskedData.data j⟩

/-- The pixel slot base index as the cast of a natural flat pixel number. -/
lemma pixIdx_natCast (width x y : Nat) :
    pixIdx width x y = ((y * width + x : Nat) : Int) * 4 := by
  unfold pixIdx
  push_cast
  ring

/-- Pointwise description of one loop-body step of `refineEdges`. -/
lemma restorePixel_apply (o m : Int → Nat) (w : Nat) (r : Int → Nat)
    (x y : Nat) (j : Int) :
    restorePixel o m w r x y j =
      if writeCond m w x y ∧ inBlock w x y j then restoredVal o j else r j := by
  have hbase : pixIdx w x y = ((y * w + x : Nat) : Int) * 4 := pixIdx_natCast w x y
  unfold restorePixel writeCond inBlock restoredVal
  by_cases h1 : m (pixIdx w x y + 3) = 0
  · by_cases h2 : 5 ≤ keptCount9 m w x y
    · simp only [if_pos h1, if_pos h2]
      by_cases e0 : j = pixIdx w x y
      · rw [if_pos e0, if_pos ⟨⟨h1, h2⟩, Or.inl e0⟩, e0, if_neg]
        rw [hbase]
        omega
      · rw [if_neg e0]
        by_cases e1 : j = pixIdx w x y + 1
        · rw [if_pos e1, if_pos ⟨⟨h1, h2⟩, Or.inr (Or.inl e1)⟩, e1, if_neg]
          rw [hbase]
          omega
        · rw [if_neg e1]
          by_cases e2 : j = pixIdx w x y + 2
          · rw [if_pos e2, if_pos ⟨⟨h1, h2⟩, Or.inr (Or.inr (Or.inl e2))⟩, e2,
              if_neg]
            rw [hbase]
            omega
          · rw [if_neg e2]
            by_cases e3 : j = pixIdx w x y + 3
            · rw [if_pos e3, if_pos ⟨⟨h1, h2⟩, Or.inr (Or.inr (Or.inr e3))⟩, e3,
                if_pos]
              rw [hbase]
              omega
            · rw [if_neg e3, if_neg]
              rintro ⟨-, hb⟩
              rcases hb with hb | hb | hb | hb <;> exact absurd hb (by assumption)
    · rw [if_pos h1, if_neg h2, if_neg (fun hc => h2 hc.1.2)]
  · rw [if_neg h1, if_neg (fun hc => h1 hc.1.1)]

/-- Pointwise description of the whole sequential restoration fold: a slot
holds the restored value exactly when some pixel of the traversal list flips
and owns the slot, and the starting buffer's value otherwise. -/
lemma foldl_restorePixel (o m : Int → Nat) (w : Nat) (L : List (Nat × Nat))
    (r : Int → Nat) (j : Int) :
    (L.foldl (fun res p => restorePixel o m w res p.1 p.2) r) j =
      if ∃ p ∈ L, writeCond m w p.1 p.2 ∧ inBlock w p.1 p.2 j
      then restoredVal o j else r j := by
  induction L generalizing r with
  | nil => simp
  | cons p L ih =>
      rw [List.foldl_cons, ih]
      by_cases hL : ∃ q ∈ L, writeCond m w q.1 q.2 ∧ inBlock w q.1 q.2 j
      · rw [if_pos hL, if_pos]
        obtain ⟨q, hq, hcq⟩ := hL
        exact ⟨q, List.mem_cons_of_mem p hq, hcq⟩
      · rw [if_neg hL, restorePixel_apply]
        by_cases hp : writeCond m w p.1 p.2 ∧ inBlock w p.1 p.2 j
        · rw [if_pos hp, if_pos ⟨p, List.mem_cons_self p L, hp⟩]
        · rw [if_neg hp, if_neg]
          rintro ⟨q, hq, hcq⟩
          rcases List.mem_cons.mp hq with rfl | hq'
          · exact hp hcq
          · exact hL ⟨q, hq', hcq⟩

/-- Pointwise description of `refineEdges`. -/
lemma refineEdges_data (o m : ImageData) (w h : Nat) (j : Int) :
    (refineEdges o m w h).data j =
      if ∃ p ∈ interiorCoords w h,
          writeCond m.data w p.1 p.2 ∧ inBlock w p.1 p.2 j
      then restoredVal o.data j else m.data j :=
  foldl_restorePixel o.data m.data w (interiorCoords w h) m.data j

/-- Membership in the interior traversal list is exactly the strict-interior
bound of the source loops. -/
lemma mem_interiorCoords (w h : Nat) (p : Nat × Nat) :
    p ∈ interiorCoords w h ↔
      1 ≤ p.1 ∧ p.1 + 1 < w ∧ 1 ≤ p.2 ∧ p.2 + 1 < h := by
  rcases p with ⟨x, y⟩
  unfold interiorCoords
  simp only [List.mem_flatMap, List.mem_map, List.mem_range'_1, Prod.mk.injEq]
  constructor
  · rintro ⟨a, ⟨ha1, ha2⟩, b, ⟨hb1, hb2⟩, rfl, rfl⟩
    omega
  · rintro ⟨h1, h2, h3, h4⟩
    exact ⟨y, ⟨by omega, by omega⟩, x, ⟨by omega, by omega⟩, rfl, rfl⟩

/-- Distinct in-row pixels have distinct flat pixel numbers. -/
lemma pixNum_inj (w x1 y1 x2 y2 : Nat) (h1 : x1 < w) (h2 : x2 < w)
    (h : y1 * w + x1 = y2 * w + x2) : x1 = x2 ∧ y1 = y2 := by
  have hx : x1 = x2 := by
    have hmod := congrArg (· % w) h
    simpa [Nat.mul_add_mod', Nat.mod_eq_of_lt h1, Nat.mod_eq_of_lt h2]
      using hmod
  subst hx
  refine ⟨rfl, ?_⟩
  have hw : 0 < w := by omega
  have : y1 * w = y2 * w := by omega
  exact Nat.eq_of_mul_eq_mul_right hw this

/-- A slot in a pixel's block is the block base plus a channel offset. -/
lemma inBlock_cases (w x y : Nat) (j : Int) (hb : inBlock w x y j) :
    ∃ c : Int, 0 ≤ c ∧ c < 4 ∧ j = pixIdx w x y + c := by
  rcases hb with hb | hb | hb | hb
  · exact ⟨0, by omega, by omega, by omega⟩
  · exact ⟨1, by omega, by omega, by omega⟩
  · exact ⟨2, by omega, by omega, by omega⟩
  · exact ⟨3, by omega, by omega, by omega⟩

/-- The alpha slot of an in-row pixel belongs to no other pixel's block. -/
lemma inBlock_alphaIdx (w x y x' y' : Nat) (hx : x < w) (hx' : x' < w)
    (hb : inBlock w x' y' (pixIdx w x y + 3)) : x' = x ∧ y' = y := by
  obtain ⟨c, hc0, hc4, he⟩ := inBlock_cases w x' y' _ hb
  rw [pixIdx_natCast w x y, pixIdx_natCast w x' y'] at he
  have hpq : ((y * w + x : Nat) : Int) = ((y' * w + x' : Nat) : Int) := by omega
  have hn : y * w + x = y' * w + x' := by exact_mod_cast hpq
  obtain ⟨hxe, hye⟩ := pixNum_inj w x y x' y' hx hx' hn
  exact ⟨hxe.symm, hye.symm⟩

/-- When the centre pixel's alpha is exactly 0 the nine-cell scan of the
source counts precisely the eight proper neighbours: the centre term of the
scan cannot contribute. -/
lemma keptCount9_eq (m : Int → Nat) (w x y : Nat)
    (h0 : m (pixIdx w x y + 3) = 0) :
    keptCount9 m w x y = keptCount8 m w x y := by
  unfold pixIdx at h0
  simp only [keptCount9, keptCount8, nbrOffsets, nbrOffsets8, List.map_cons,
    List.map_nil, List.sum_cons, List.sum_nil, add_zero]
  rw [h0]
  norm_num

/-- Values of `restoredVal` on the four slots of a pixel block: colors come
from the original buffer, alpha becomes 255. -/
lemma restoredVal_base (o : Int → Nat) (w x y : Nat) :
    restoredVal o (pixIdx w x y) = o (pixIdx w x y) ∧
    restoredVal o (pixIdx w x y + 1) = o (pixIdx w x y + 1) ∧
    restoredVal o (pixIdx w x y + 2) = o (pixIdx w x y + 2) ∧
    restoredVal o (pixIdx w x y + 3) = 255 := by
  rw [pixIdx_natCast]
  unfold restoredVal
  refine ⟨?_, ?_, ?_, ?_⟩
  · rw [if_neg (by omega)]
  · rw [if_neg (by omega)]
  · rw [if_neg (by omega)]
  · rw [if_pos (by omega)]

/-- The alpha channel of an in-bounds pixel after `refineEdges`: it is 255
when the pixel is strictly interior and satisfies the flip condition, and the
masked buffer's alpha otherwise. -/
lemma refineEdges_alpha (o m : ImageData) (w h x y : Nat)
    (hx : x < w) (hy : y < h) :
    (refineEdges o m w h).data (pixIdx w x y + 3) =
      if 1 ≤ x ∧ x + 1 < w ∧ 1 ≤ y ∧ y + 1 < h ∧ writeCond m.data w x y
      then 255 else m.data (pixIdx w x y + 3) := by
  rw [refineEdges_data]
  by_cases hc : 1 ≤ x ∧ x + 1 < w ∧ 1 ≤ y ∧ y + 1 < h ∧ writeCond m.data w x y
  · rw [if_pos hc, if_pos ⟨(x, y),
      (mem_interiorCoords w h (x, y)).2 ⟨hc.1, hc.2.1, hc.2.2.1, hc.2.2.2.1⟩,
      hc.2.2.2.2, Or.inr (Or.inr (Or.inr rfl))⟩]
    exact (restoredVal_base o.data w x y).2.2.2
  · rw [if_neg hc, if_neg]
    rintro ⟨p, hp, hwc, hb⟩
    rw [mem_interiorCoords] at hp
    rcases p with ⟨px, py⟩
    dsimp only at hp hwc hb
    have hpx : px < w := by omega
    obtain ⟨hex, hey⟩ := inBlock_alphaIdx w x y px py hx hpx hb
    subst hex
    subst hey
    exact hc ⟨hp.1, hp.2.1, hp.2.2.1, hp.2.2.2, hwc⟩

/-- C10: the sequential row-by-row restoration fold of `refineEdges` computes
the same buffer as a simultaneous application of the 5-of-8 rule to the input
mask: every flip decision is taken against the pre-pass masked snapshot, so a
pixel flipped during the pass is never counted as an opaque neighbour of
another pixel in the same pass. -/
theorem refineEdges_eq_simultaneous (o m : ImageData) (w h : Nat) :
    refineEdges o m w h = refineEdgesSimul o m w h := by
  unfold refineEdges refineEdgesSimul
  congr 1
  funext j
  rw [foldl_restorePixel]
  by_cases hc : ∃ p ∈ interiorCoords w h,
      writeCond m.data w p.1 p.2 ∧ inBlock w p.1 p.2 j
  · rw [if_pos hc, if_pos]
    obtain ⟨⟨px, py⟩, hp, hwc, hb⟩ := hc
    rw [mem_interiorCoords] at hp
    dsimp only at hp hwc hb
    refine ⟨px, List.mem_range.2 (by omega), py, List.mem_range.2 (by omega),
      by omega, by omega, by omega, by omega, hwc.1, ?_, hb⟩
    rw [← keptCount9_eq m.data w px py hwc.1]
    exact hwc.2
  · rw [if_neg hc, if_neg]
    rintro ⟨px, hpx, py, hpy, h1, h2, h3, h4, h5, h6, hb⟩
    exact hc ⟨(px, py), (mem_interiorCoords w h (px, py)).2 ⟨h1, h2, h3, h4⟩,
      ⟨h5, by rw [keptCount9_eq m.data w px py h5]; exact h6⟩, hb⟩

/-- C5: the edge-restoration pass is monotone — at any alpha slot it either
leaves the masked value unchanged, or the masked value was exactly 0 and it
becomes 255; a pixel kept in the input is never made more transparent. -/
theorem refineEdges_monotone (o m : ImageData) (w h : Nat) (j : Int)
    (hj : j % 4 = 3) :
    (refineEdges o m w h).data j = m.data j ∨
      (m.data j = 0 ∧ (refineEdges o m w h).data j = 255) := by
  have hd := refineEdges_data o m w h j
  by_cases hc : ∃ p ∈ interiorCoords w h,
      writeCond m.data w p.1 p.2 ∧ inBlock w p.1 p.2 j
  · rw [if_pos hc] at hd
    right
    obtain ⟨⟨px, py⟩, hp, hwc, hb⟩ := hc
    obtain ⟨c, hc0, hc4, he⟩ := inBlock_cases w px py j hb
    dsimp only at hwc he
    have h3 : c = 3 := by
      rw [pixIdx_natCast] at he
      omega
    subst h3
    refine ⟨?_, ?_⟩
    · rw [he]
      exact hwc.1
    · rw [hd]
      unfold restoredVal
      rw [if_pos hj]
  · rw [if_neg hc] at hd
    exact Or.inl hd

/-- C6: a border pixel (incomplete 3-by-3 neighbourhood) is never eligible
for edge restoration — its alpha after the pass equals its alpha before it,
whatever its neighbours hold. -/
theorem refineEdges_border_unchanged (o m : ImageData) (w h x y : Nat)
    (hx : x < w) (hy : y < h)
    (hb : x = 0 ∨ x = w - 1 ∨ y = 0 ∨ y = h - 1) :
    (refineEdges o m w h).data (pixIdx w x y + 3) =
      m.data (pixIdx w x y + 3) := by
  rw [refineEdges_alpha o m w h x y hx hy, if_neg]
  rintro ⟨h1, h2, h3, h4, -⟩
  omega

/-- C4: an interior pixel whose base-composited alpha is 0 and which has at
least 5 of its 8 neighbours kept (alpha above 128) in the masked buffer is
flipped by the compositing stage: its alpha becomes 255 and its colors are
taken from the original, unmasked source buffer. -/
theorem refineEdges_restores_interior (img mask : ImageData) (w h x y : Nat)
    (h1 : 1 ≤ x) (h2 : x + 1 < w) (h3 : 1 ≤ y) (h4 : y + 1 < h)
    (h0 : (destIn img mask).data (pixIdx w x y + 3) = 0)
    (h5 : 5 ≤ keptCount8 (destIn img mask).data w x y) :
    (applyMaskWithSmoothing img mask w h).data (pixIdx w x y + 3) = 255 ∧
    (applyMaskWithSmoothing img mask w h).data (pixIdx w x y) =
      img.data (pixIdx w x y) ∧
    (applyMaskWithSmoothing img mask w h).data (pixIdx w x y + 1) =
      img.data (pixIdx w x y + 1) ∧
    (applyMaskWithSmoothing img mask w h).data (pixIdx w x y + 2) =
      img.data (pixIdx w x y + 2) := by
  have hwc : writeCond (destIn img mask).data w x y :=
    ⟨h0, by rw [keptCount9_eq _ w x y h0]; exact h5⟩
  have hmem : (x, y) ∈ interiorCoords w h :=
    (mem_interiorCoords w h (x, y)).2 ⟨h1, h2, h3, h4⟩
  have hrb := restoredVal_base img.data w x y
  unfold applyMaskWithSmoothing
  refine ⟨?_, ?_, ?_, ?_⟩
  · rw [refineEdges_data,
      if_pos ⟨(x, y), hmem, hwc, Or.inr (Or.inr (Or.inr rfl))⟩]
    exact hrb.2.2.2
  · rw [refineEdges_data, if_pos ⟨(x, y), hmem, hwc, Or.inl rfl⟩]
    exact hrb.1
  · rw [refineEdges_data, if_pos ⟨(x, y), hmem, hwc, Or.inr (Or.inl rfl)⟩]
    exact hrb.2.1
  · rw [refineEdges_data,
      if_pos ⟨(x, y), hmem, hwc, Or.inr (Or.inr (Or.inl rfl))⟩]
    exact hrb.2.2.1

/-- A 3-by-3 fully opaque source image whose color channels are all 40. -/
def srcGrid : ImageData :=
  ⟨3, 3, fun j => if j % 4 = 3 then 255 else 40⟩

/-- A 3-by-3 binary mask keeping every pixel except the centre (flat alpha
slot 19), whose alpha is 0. -/
def holeMask : ImageData :=
  ⟨3, 3, fun j => if j % 4 = 3 then (if j = 19 then 0 else 255) else 0⟩

/-- Witness for C5 at the centre alpha slot of a concrete 3-by-3 grid. -/
theorem refineEdges_monotone_witness :
    (refineEdges srcGrid holeMask 3 3).data 19 = holeMask.data 19 ∨
      (holeMask.data 19 = 0 ∧ (refineEdges srcGrid holeMask 3 3).data 19 = 255) :=
  refineEdges_monotone srcGrid holeMask 3 3 19 (by decide)

/-- Witness for C6 at the corner pixel (0, 0) of a concrete 3-by-3 grid. -/
theorem refineEdges_border_unchanged_witness :
    (refineEdges srcGrid holeMask 3 3).data (pixIdx 3 0 0 + 3) =
      holeMask.data (pixIdx 3 0 0 + 3) :=
  refineEdges_border_unchanged srcGrid holeMask 3 3 0 0 (by decide) (by decide)
    (Or.inl rfl)

/-- Witness for C4: the isolated discarded centre of a 3-by-3 grid whose
eight neighbours are all kept is restored with the source colors. -/
theorem refineEdges_restores_interior_witness :
    (applyMaskWithSmoothing srcGrid holeMask 3 3).data (pixIdx 3 1 1 + 3) = 255 ∧
    (applyMaskWithSmoothing srcGrid holeMask 3 3).data (pixIdx 3 1 1) =
      srcGrid.data (pixIdx 3 1 1) ∧
    (applyMaskWithSmoothing srcGrid holeMask 3 3).data (pixIdx 3 1 1 + 1) =
      srcGrid.data (pixIdx 3 1 1 + 1) ∧
    (applyMaskWithSmoothing srcGrid holeMask 3 3).data (pixIdx 3 1 1 + 2) =
      srcGrid.data (pixIdx 3 1 1 + 2) :=
  refineEdges_restores_interior srcGrid holeMask 3 3 1 1 (by decide) (by decide)
    (by decide) (by decide) (by decide) (by decide)

/-- C9: the pipeline's composited output has exactly the source image's
dimensions, whatever the refinement setting, the blur, and the segmentation
mask. -/
theorem removeBackground_dims (refinement : Bool)
    (blurDraw : (Int → Nat) → Int → Nat) (img segMask : ImageData) :
    (removeBackground refinement blurDraw img segMask).width = img.width ∧
    (removeBackground refinement blurDraw img segMask).height = img.height :=
  ⟨rfl, rfl⟩

/-- C8: on a mask whose values are already only 0 or 255, applying the
smoothing pass's re-binarization twice yields the same buffer as applying it
once. -/
theorem rebinarize_idempotent (m : ImageData)
    (_hbin : ∀ j : Int, m.data j = 0 ∨ m.data j = 255) :
    rebinarize (rebinarize m) = rebinarize m := by
  unfold rebinarize
  congr 1
  funext j
  dsimp only
  by_cases hc : 0 ≤ j ∧ j < 4 * (m.width * m.height) ∧ j % 4 ≠ 3
  · rw [if_pos hc, if_pos hc]
    have hri : 0 ≤ j / 4 * 4 ∧ j / 4 * 4 < 4 * (m.width * m.height) ∧
        j / 4 * 4 % 4 ≠ 3 := by
      obtain ⟨a, b, c⟩ := hc
      refine ⟨by omega, by omega, by omega⟩
    rw [if_pos hri]
    have he : j / 4 * 4 / 4 * 4 = j / 4 * 4 := by omega
    rw [he]
    by_cases hm : 128 < m.data (j / 4 * 4)
    · rw [if_pos hm, if_pos (by norm_num : (128 : Nat) < 255)]
    · rw [if_neg hm, if_neg (by norm_num : ¬(128 : Nat) < 0)]
  · rw [if_neg hc, if_neg hc]

/-- A 1-by-1 all-white mask (every channel 255). -/
def whiteMask : ImageData := ⟨1, 1, fun _ => 255⟩

/-- Witness for C8 on a concrete binary mask. -/
theorem rebinarize_idempotent_witness :
    rebinarize (rebinarize whiteMask) = rebinarize whiteMask :=
  rebinarize_idempotent whiteMask (fun _ => Or.inr rfl)

/-- A 1-by-1 buffer with channel values 100, 200, 50 and alpha 77, as a
post-blur mask state. -/
def grayMask : ImageData :=
  ⟨1, 1, fun j =>
    if j = 0 then 100 else if j = 1 then 200
    else if j = 2 then 50 else if j = 3 then 77 else 0⟩

/-- Counterexample to C7 as stated: the green channel holds 200 > 128 yet is
re-binarized to 0, not 255 (the split is decided by the red channel alone),
and the alpha channel holds 77 ≤ 128 yet stays 77 instead of becoming 0 —
intermediate alpha values survive the re-binarization. -/
theorem rebinarize_not_per_channel :
    grayMask.data 1 = 200 ∧ (rebinarize grayMask).data 1 ≠ 255 ∧
    (rebinarize grayMask).data 1 = 0 ∧
    grayMask.data 3 = 77 ∧ (rebinarize grayMask).data 3 ≠ 0 ∧
    (rebinarize grayMask).data 3 = 77 := by decide

/-- C7 (amended): the re-binarization inspects only the red channel — for
every in-range slot outside the alpha channel the output is 255 when the
pixel's red channel exceeds 128 and 0 otherwise (hence binary), while every
alpha slot is left unchanged. -/
theorem rebinarize_red_channel (m : ImageData) (j : Int) (hj0 : 0 ≤ j)
    (hjlen : j < 4 * (m.width * m.height)) :
    (j % 4 ≠ 3 →
      (rebinarize m).data j = (if 128 < m.data (j / 4 * 4) then 255 else 0) ∧
        ((rebinarize m).data j = 0 ∨ (rebinarize m).data j = 255)) ∧
    (j % 4 = 3 → (rebinarize m).data j = m.data j) := by
  unfold rebinarize
  dsimp only
  constructor
  · intro hne
    rw [if_pos ⟨hj0, hjlen, hne⟩]
    refine ⟨rfl, ?_⟩
    by_cases hm : 128 < m.data (j / 4 * 4)
    · rw [if_pos hm]
      right
      rfl
    · rw [if_neg hm]
      left
      rfl
  · intro he
    rw [if_neg (fun hcon => hcon.2.2 he)]

/-- Witness for the amended C7 at slot 0 of the concrete gray mask. -/
theorem rebinarize_red_channel_witness :
    ((0 : Int) % 4 ≠ 3 →
      (rebinarize grayMask).data 0 =
        (if 128 < grayMask.data (0 / 4 * 4) then 255 else 0) ∧
        ((rebinarize grayMask).data 0 = 0 ∨ (rebinarize grayMask).data 0 = 255)) ∧
    ((0 : Int) % 4 = 3 → (rebinarize grayMask).data 0 = grayMask.data 0) :=
  rebinarize_red_channel grayMask 0 (by decide) (by decide)

/-- A slot in a pixel's block identifies the pixel, for in-row pixels. -/
lemma inBlock_unique (w x y x' y' : Nat) (c : Int) (hc0 : 0 ≤ c) (hc4 : c < 4)
    (hx : x < w) (hx' : x' < w)
    (hb : inBlock w x' y' (pixIdx w x y + c)) : x' = x ∧ y' = y := by
  obtain ⟨c', hc0', hc4', he⟩ := inBlock_cases w x' y' _ hb
  rw [pixIdx_natCast w x y, pixIdx_natCast w x' y'] at he
  have hpq : ((y * w + x : Nat) : Int) = ((y' * w + x' : Nat) : Int) := by omega
  have hn : y * w + x = y' * w + x' := by exact_mod_cast hpq
  obtain ⟨hxe, hye⟩ := pixNum_inj w x y x' y' hx hx' hn
  exact ⟨hxe.symm, hye.symm⟩

/-- A slot of an in-row pixel that does not flip is left unchanged by the
restoration pass. -/
lemma refineEdges_slot_unflipped (o m : ImageData) (w h x y : Nat) (c : Int)
    (hc0 : 0 ≤ c) (hc4 : c < 4) (hx : x < w)
    (hnw : ¬(1 ≤ x ∧ x + 1 < w ∧ 1 ≤ y ∧ y + 1 < h ∧
      writeCond m.data w x y)) :
    (refineEdges o m w h).data (pixIdx w x y + c) =
      m.data (pixIdx w x y + c) := by
  rw [refineEdges_data, if_neg]
  rintro ⟨⟨px, py⟩, hp, hwc, hb⟩
  rw [mem_interiorCoords] at hp
  dsimp only at hp hwc hb
  have hpx : px < w := by omega
  obtain ⟨hex, hey⟩ := inBlock_unique w x y px py c hc0 hc4 hx hpx hb
  subst hex
  subst hey
  exact hnw ⟨hp.1, hp.2.1, hp.2.2.1, hp.2.2.2, hwc⟩

/-- Value of `destination-in` at channel slot `c` of a pixel: the destination channel
is scaled by the source pixel's alpha. -/
lemma destIn_slot (img mask : ImageData) (p c : Int) (hc0 : 0 ≤ c)
    (hc4 : c < 4) :
    (destIn img mask).data (p * 4 + c) =
      img.data (p * 4 + c) * mask.data (p * 4 + 3) / 255 := by
  unfold destIn
  dsimp only
  have he : (p * 4 + c) / 4 * 4 + 3 = p * 4 + 3 := by omega
  rw [he]

/-- Under a fully opaque destination, `destination-in` copies the source
(mask) alpha into every alpha slot exactly. -/
lemma destIn_alpha (img mask : ImageData)
    (hOp : ∀ p : Int, img.data (p * 4 + 3) = 255) (p : Int) :
    (destIn img mask).data (p * 4 + 3) = mask.data (p * 4 + 3) := by
  rw [destIn_slot img mask p 3 (by norm_num) (by norm_num), hOp p]
  exact Nat.mul_div_cancel_left _ (by norm_num)

/-- Buffers with equal alpha channels have equal kept-neighbour counts. -/
lemma keptCount8_congr (m1 m2 : Int → Nat) (w x y : Nat)
    (ha : ∀ p : Int, m1 (p * 4 + 3) = m2 (p * 4 + 3)) :
    keptCount8 m1 w x y = keptCount8 m2 w x y := by
  unfold keptCount8
  simp only [ha]

/-- C1 (amended): with refinement disabled the smoothing pass is skipped, but
the compositing stage still runs the edge-restoration pass unconditionally —
for a fully opaque source, the output alpha of every pixel equals the Mask
Builder's decision for it, except that an interior pixel whose decision is 0
and which has at least 5 of its 8 neighbours kept in the builder's mask gets
alpha 255. -/
theorem removeBackground_alpha_noRefinement (img seg : ImageData)
    (bd : (Int → Nat) → Int → Nat)
    (hOp : ∀ p : Int, img.data (p * 4 + 3) = 255)
    (x y : Nat) (hx : x < img.width) (hy : y < img.height) :
    (removeBackground false bd img seg).data (pixIdx img.width x y + 3) =
      if 1 ≤ x ∧ x + 1 < img.width ∧ 1 ≤ y ∧ y + 1 < img.height ∧
          (createEnhancedMask false bd seg img.width img.height).data
            (pixIdx img.width x y + 3) = 0 ∧
          5 ≤ keptCount8
            (createEnhancedMask false bd seg img.width img.height).data
            img.width x y
      then 255
      else (createEnhancedMask false bd seg img.width img.height).data
        (pixIdx img.width x y + 3) := by
  unfold removeBackground applyMaskWithSmoothing
  set w := img.width with hw
  set h := img.height with hh
  set mask0 := createEnhancedMask false bd seg w h with hm0
  have hac : ∀ p : Int, (destIn img mask0).data (p * 4 + 3) =
      mask0.data (p * 4 + 3) := destIn_alpha img mask0 hOp
  have hpix := pixIdx_natCast w x y
  rw [refineEdges_alpha img (destIn img mask0) w h x y hx hy]
  have hcnd : (1 ≤ x ∧ x + 1 < w ∧ 1 ≤ y ∧ y + 1 < h ∧
      writeCond (destIn img mask0).data w x y) ↔
      (1 ≤ x ∧ x + 1 < w ∧ 1 ≤ y ∧ y + 1 < h ∧
        mask0.data (pixIdx w x y + 3) = 0 ∧
        5 ≤ keptCount8 mask0.data w x y) := by
    unfold writeCond
    constructor
    · rintro ⟨a, b, c, d, h0, h5⟩
      have h0' : mask0.data (pixIdx w x y + 3) = 0 := by
        rw [hpix, ← hac, ← hpix]
        exact h0
      refine ⟨a, b, c, d, h0', ?_⟩
      rw [← keptCount8_congr _ _ w x y hac, ← keptCount9_eq _ w x y h0]
      exact h5
    · rintro ⟨a, b, c, d, h0, h5⟩
      have h0' : (destIn img mask0).data (pixIdx w x y + 3) = 0 := by
        rw [hpix, hac, ← hpix]
        exact h0
      refine ⟨a, b, c, d, h0', ?_⟩
      rw [keptCount9_eq _ w x y h0', keptCount8_congr _ _ w x y hac]
      exact h5
  by_cases hif : 1 ≤ x ∧ x + 1 < w ∧ 1 ≤ y ∧ y + 1 < h ∧
      mask0.data (pixIdx w x y + 3) = 0 ∧ 5 ≤ keptCount8 mask0.data w x y
  · rw [if_pos (hcnd.2 hif), if_pos hif]
  · rw [if_neg (fun hcc => hif (hcnd.1 hcc)), if_neg hif]
    rw [hpix, hac, ← hpix]

/-- Counterexample to C1 as stated: with refinement disabled, the output
alpha at the centre of a 3-by-3 grid is 255 although the Mask Builder's
binary decision for that pixel is 0 — the edge-restoration pass is not
turned off by the refinement toggle. -/
theorem removeBackground_alpha_counterexample :
    (createEnhancedMask false (fun d => d) holeMask 3 3).data 19 = 0 ∧
    (removeBackground false (fun d => d) srcGrid holeMask).data 19 = 255 ∧
    (removeBackground false (fun d => d) srcGrid holeMask).data 19 ≠
      (createEnhancedMask false (fun d => d) holeMask 3 3).data 19 := by
  decide

/-- Witness for the amended C1 at the centre of the concrete 3-by-3 grid. -/
theorem removeBackground_alpha_noRefinement_witness :
    (removeBackground false (fun d => d) srcGrid holeMask).data
        (pixIdx 3 1 1 + 3) = 255 := by
  have h := removeBackground_alpha_noRefinement srcGrid holeMask (fun d => d)
    (fun p => by
      show (if (p * 4 + 3) % 4 = 3 then (255 : Nat) else 40) = 255
      rw [if_pos (by omega)])
    1 1 (by decide) (by decide)
  show (removeBackground false (fun d => d) srcGrid holeMask).data
    (pixIdx srcGrid.width 1 1 + 3) = 255
  rw [h, if_pos (by decide)]

/-- C2 (amended): compositing preserves RGB only for kept and for restored
pixels.  For a fully opaque source and a binary mask decision at a pixel:
with mask alpha 255 the output pixel keeps the source colors and alpha 255;
with mask alpha 0 the pixel either gets flipped by the always-running edge
restoration (source colors, alpha 255) or comes out with zeroed colors and
alpha 0 — `destination-in` multiplies the color channels by the mask alpha,
so the color data of discarded pixels is zeroed, not preserved. -/
theorem compositor_rgb (img mask : ImageData) (w h x y : Nat)
    (hOp : ∀ p : Int, img.data (p * 4 + 3) = 255)
    (hx : x < w) (_hy : y < h) :
    (mask.data (pixIdx w x y + 3) = 255 →
      (applyMaskWithSmoothing img mask w h).data (pixIdx w x y) =
        img.data (pixIdx w x y) ∧
      (applyMaskWithSmoothing img mask w h).data (pixIdx w x y + 1) =
        img.data (pixIdx w x y + 1) ∧
      (applyMaskWithSmoothing img mask w h).data (pixIdx w x y + 2) =
        img.data (pixIdx w x y + 2) ∧
      (applyMaskWithSmoothing img mask w h).data (pixIdx w x y + 3) = 255) ∧
    (mask.data (pixIdx w x y + 3) = 0 →
      ((1 ≤ x ∧ x + 1 < w ∧ 1 ≤ y ∧ y + 1 < h ∧
          5 ≤ keptCount8 (destIn img mask).data w x y) →
        (applyMaskWithSmoothing img mask w h).data (pixIdx w x y) =
          img.data (pixIdx w x y) ∧
        (applyMaskWithSmoothing img mask w h).data (pixIdx w x y + 1) =
          img.data (pixIdx w x y + 1) ∧
        (applyMaskWithSmoothing img mask w h).data (pixIdx w x y + 2) =
          img.data (pixIdx w x y + 2) ∧
        (applyMaskWithSmoothing img mask w h).data (pixIdx w x y + 3) = 255) ∧
      (¬(1 ≤ x ∧ x + 1 < w ∧ 1 ≤ y ∧ y + 1 < h ∧
          5 ≤ keptCount8 (destIn img mask).data w x y) →
        (applyMaskWithSmoothing img mask w h).data (pixIdx w x y) = 0 ∧
        (applyMaskWithSmoothing img mask w h).data (pixIdx w x y + 1) = 0 ∧
        (applyMaskWithSmoothing img mask w h).data (pixIdx w x y + 2) = 0 ∧
        (applyMaskWithSmoothing img mask w h).data (pixIdx w x y + 3) = 0)) := by
  unfold applyMaskWithSmoothing
  have hpix := pixIdx_natCast w x y
  set n : Int := ((y * w + x : Nat) : Int) with hn
  have hslot : ∀ c : Int, 0 ≤ c → c < 4 →
      (destIn img mask).data (pixIdx w x y + c) =
        img.data (pixIdx w x y + c) * mask.data (pixIdx w x y + 3) / 255 := by
    intro c h0 h4
    rw [hpix]
    exact destIn_slot img mask n c h0 h4
  have hiα : img.data (pixIdx w x y + 3) = 255 := by
    rw [hpix]
    exact hOp n
  constructor
  · intro h255
    have hα : (destIn img mask).data (pixIdx w x y + 3) = 255 := by
      rw [hslot 3 (by norm_num) (by norm_num), h255, hiα]
    have hnw : ¬(1 ≤ x ∧ x + 1 < w ∧ 1 ≤ y ∧ y + 1 < h ∧
        writeCond (destIn img mask).data w x y) := by
      rintro ⟨-, -, -, -, hzz, -⟩
      rw [hα] at hzz
      exact absurd hzz (by norm_num)
    have hkeep : ∀ c : Int, 0 ≤ c → c < 4 →
        (refineEdges img (destIn img mask) w h).data (pixIdx w x y + c) =
          img.data (pixIdx w x y + c) * 255 / 255 := by
      intro c h0 h4
      rw [refineEdges_slot_unflipped img (destIn img mask) w h x y c h0 h4 hx
        hnw, hslot c h0 h4, h255]
    have hk0 := hkeep 0 (by norm_num) (by norm_num)
    rw [add_zero] at hk0
    have hk1 := hkeep 1 (by norm_num) (by norm_num)
    have hk2 := hkeep 2 (by norm_num) (by norm_num)
    have hk3 := refineEdges_slot_unflipped img (destIn img mask) w h x y 3
      (by norm_num) (by norm_num) hx hnw
    refine ⟨?_, ?_, ?_, ?_⟩
    · rw [hk0]
      omega
    · rw [hk1]
      omega
    · rw [hk2]
      omega
    · rw [hk3]
      exact hα
  · intro h0m
    have hα0 : (destIn img mask).data (pixIdx w x y + 3) = 0 := by
      rw [hslot 3 (by norm_num) (by norm_num), h0m]
      omega
    have hzs : ∀ c : Int, 0 ≤ c → c < 4 →
        (destIn img mask).data (pixIdx w x y + c) = 0 := by
      intro c h0 h4
      rw [hslot c h0 h4, h0m]
      omega
    constructor
    · rintro ⟨a, b, cc, d, h5⟩
      have hwc : writeCond (destIn img mask).data w x y :=
        ⟨hα0, by rw [keptCount9_eq _ w x y hα0]; exact h5⟩
      have hmem := (mem_interiorCoords w h (x, y)).2 ⟨a, b, cc, d⟩
      have hrb := restoredVal_base img.data w x y
      refine ⟨?_, ?_, ?_, ?_⟩
      · rw [refineEdges_data, if_pos ⟨(x, y), hmem, hwc, Or.inl rfl⟩]
        exact hrb.1
      · rw [refineEdges_data, if_pos ⟨(x, y), hmem, hwc, Or.inr (Or.inl rfl)⟩]
        exact hrb.2.1
      · rw [refineEdges_data,
          if_pos ⟨(x, y), hmem, hwc, Or.inr (Or.inr (Or.inl rfl))⟩]
        exact hrb.2.2.1
      · rw [refineEdges_data,
          if_pos ⟨(x, y), hmem, hwc, Or.inr (Or.inr (Or.inr rfl))⟩]
        exact hrb.2.2.2
    · intro hnot
      have hnw : ¬(1 ≤ x ∧ x + 1 < w ∧ 1 ≤ y ∧ y + 1 < h ∧
          writeCond (destIn img mask).data w x y) := by
        rintro ⟨a, b, cc, d, -, h5⟩
        exact hnot ⟨a, b, cc, d,
          by rw [← keptCount9_eq _ w x y hα0]; exact h5⟩
      have hu : ∀ c : Int, 0 ≤ c → c < 4 →
          (refineEdges img (destIn img mask) w h).data (pixIdx w x y + c) =
            0 := by
        intro c h0 h4
        rw [refineEdges_slot_unflipped img (destIn img mask) w h x y c h0 h4
          hx hnw]
        exact hzs c h0 h4
      have hu0 := hu 0 (by norm_num) (by norm_num)
      rw [add_zero] at hu0
      exact ⟨hu0, hu 1 (by norm_num) (by norm_num),
        hu 2 (by norm_num) (by norm_num), hu 3 (by norm_num) (by norm_num)⟩

/-- A 1-by-1 fully opaque source with colors 10, 20, 30. -/
def tinySrc : ImageData :=
  ⟨1, 1, fun j =>
    if j % 4 = 3 then 255 else if j = 0 then 10 else if j = 1 then 20 else 30⟩

/-- A 1-by-1 mask discarding its only pixel (every channel 0). -/
def zeroMask : ImageData := ⟨1, 1, fun _ => 0⟩

/-- Counterexample to C2 as stated: the lone pixel is transparent in the
output and its red channel has been zeroed by `destination-in` — it reads 0
where the source reads 10, so transparent pixels do not keep their color
data. -/
theorem compositor_rgb_counterexample :
    tinySrc.data 0 = 10 ∧
    (removeBackground false (fun d => d) tinySrc zeroMask).data 0 = 0 ∧
    (removeBackground false (fun d => d) tinySrc zeroMask).data 0 ≠
      tinySrc.data 0 ∧
    (removeBackground false (fun d => d) tinySrc zeroMask).data 3 = 0 := by
  decide

/-- Witness for the amended C2 on the concrete 1-by-1 discarded pixel. -/
theorem compositor_rgb_witness :
    (applyMaskWithSmoothing tinySrc zeroMask 1 1).data (pixIdx 1 0 0) = 0 ∧
    (applyMaskWithSmoothing tinySrc zeroMask 1 1).data (pixIdx 1 0 0 + 3) =
      0 := by
  have h := compositor_rgb tinySrc zeroMask 1 1 0 0
    (fun p => by
      show (if (p * 4 + 3) % 4 = 3 then (255 : Nat)
        else if p * 4 + 3 = 0 then 10 else if p * 4 + 3 = 1 then 20
        else 30) = 255
      rw [if_pos (by omega)])
    (by decide) (by decide)
  have h3 := (h.2 (by decide)).2 (by decide)
  exact ⟨h3.1, h3.2.2.2⟩

/-- C3 (amended): the Mask Builder performs no dimension check and never
fails — the segmentation grid is copied to the origin of a source-sized mask
canvas, cropped to the source bounds; mask pixels not covered by the
segmentation grid stay fully transparent (every channel 0, treated as
background), and the pipeline still returns a full-size composite. -/
theorem maskBuilder_no_dimension_check (seg : ImageData)
    (bd : (Int → Nat) → Int → Nat) (w h x y : Nat) (c : Int)
    (hx : x < w) (hy : y < h) (hc0 : 0 ≤ c) (hc4 : c < 4) :
    (createEnhancedMask false bd seg w h).width = w ∧
    (createEnhancedMask false bd seg w h).height = h ∧
    (createEnhancedMask false bd seg w h).data (pixIdx w x y + c) =
      (if x < seg.width ∧ y < seg.height then
        seg.data (((y : Int) * seg.width + x) * 4 + c) else 0) := by
  refine ⟨rfl, rfl, ?_⟩
  show (putImageData (blankCanvas w h) seg).data (pixIdx w x y + c) = _
  unfold putImageData blankCanvas
  dsimp only
  rw [pixIdx_natCast]
  have hj4 : (((y * w + x : Nat) : Int) * 4 + c) / 4 =
      ((y * w + x : Nat) : Int) := by omega
  have hjm : (((y * w + x : Nat) : Int) * 4 + c) % 4 = c := by omega
  rw [hj4, hjm]
  have hmod : ((y * w + x : Nat) : Int) % (w : Int) = (x : Int) := by
    have h1 : (y * w + x) % w = x := by
      rw [Nat.mul_add_mod']
      exact Nat.mod_eq_of_lt hx
    calc ((y * w + x : Nat) : Int) % (w : Int)
        = (((y * w + x) % w : Nat) : Int) := rfl
      _ = (x : Int) := by rw [h1]
  have hdiv : ((y * w + x : Nat) : Int) / (w : Int) = (y : Int) := by
    have h1 : (y * w + x) / w = y := by
      rw [Nat.add_comm, Nat.add_mul_div_right x y (by omega : 0 < w),
        Nat.div_eq_of_lt hx]
      omega
    calc ((y * w + x : Nat) : Int) / (w : Int)
        = (((y * w + x) / w : Nat) : Int) := rfl
      _ = (y : Int) := by rw [h1]
  rw [hmod, hdiv]
  by_cases hseg : x < seg.width ∧ y < seg.height
  · rw [if_pos hseg, if_pos ⟨by omega, by exact_mod_cast hseg.1,
      by exact_mod_cast hseg.2, by exact_mod_cast hy⟩]
  · rw [if_neg (fun hcc => hseg ⟨by exact_mod_cast hcc.2.1,
      by exact_mod_cast hcc.2.2.1⟩), if_neg hseg]

/-- A 2-by-2 fully opaque source with colors 9. -/
def wideSrc : ImageData :=
  ⟨2, 2, fun j => if j % 4 = 3 then 255 else 9⟩

/-- A 1-by-1 segmentation mask keeping its only pixel. -/
def smallSeg : ImageData :=
  ⟨1, 1, fun j => if j % 4 = 3 then 255 else 0⟩

/-- Counterexample to C3 as stated: a segmentation grid whose dimensions
disagree with the source image does not make the request fail — the pipeline
returns a full 2-by-2 composite in which the covered pixel is kept (alpha
255) and the uncovered pixel is discarded (alpha 0), i.e. a partial mask is
silently used. -/
theorem maskBuilder_counterexample :
    smallSeg.width ≠ wideSrc.width ∧
    (removeBackground false (fun d => d) wideSrc smallSeg).width = 2 ∧
    (removeBackground false (fun d => d) wideSrc smallSeg).height = 2 ∧
    (removeBackground false (fun d => d) wideSrc smallSeg).data 3 = 255 ∧
    (removeBackground false (fun d => d) wideSrc smallSeg).data 7 = 0 := by
  decide

/-- Witness for the amended C3: the pixel (1, 0) of the source-sized mask is
not covered by the 1-by-1 segmentation grid and stays transparent. -/
theorem maskBuilder_no_dimension_check_witness :
    (createEnhancedMask false (fun d => d) smallSeg 2 2).data
        (pixIdx 2 1 0 + 3) = 0 ∧
    (createEnhancedMask false (fun d => d) smallSeg 2 2).width = 2 := by
  have h := maskBuilder_no_dimension_check smallSeg (fun d => d) 2 2 1 0 3
    (by decide) (by decide) (by decide) (by decide)
  refine ⟨?_, h.1⟩
  rw [h.2.2, if_neg (by decide)]
